import Mathlib

/-!
Verification of the Forest MCP n8n node adaptation layer.

Shallow embedding of the pure/control-flow logic of:
  - nodes/Forest/utils.ts   (cleanParameters, getAllTools, normalizeAndValidateUrl,
                             errorHasCode, connectMcpClient, mapToNodeOperationError,
                             getAuthHeadersAndEndpoint)
  - nodes/Forest/resourceMapping.ts (jsonSchemaTypeToFieldType,
                             convertJsonSchemaToResourceMapperFields, getToolParameters)
  - nodes/Forest/listSearch.ts (getTools)
  - nodes/Forest/Forest.node.ts (Forest.execute)

External collaborators (the MCP SDK transport, the WHATWG URL parser, the n8n
credential store and per-item tool calls) are modelled as oracle parameters.
-/

/-- A JavaScript value as manipulated by the node's parameter-cleaning and
schema code: `undefined`, `null`, primitives, arrays, and plain objects
(ordered key/value entry lists, as produced by `Object.entries`). -/
inductive Js where
  | undef
  | null
  | boolean (b : Bool)
  | number (n : Int)
  | str (s : String)
  | arr (elems : List Js)
  | obj (fields : List (String × Js))

mutual

/-- Structural equality of `Js` values (JS strict equality extended
structurally to arrays and objects, for stating properties). -/
def Js.beq : Js → Js → Bool
  | .undef, .undef => true
  | .null, .null => true
  | .boolean a, .boolean b => a == b
  | .number a, .number b => a == b
  | .str a, .str b => a == b
  | .arr a, .arr b => Js.beqList a b
  | .obj a, .obj b => Js.beqEntries a b
  | _, _ => false

def Js.beqList : List Js → List Js → Bool
  | [], [] => true
  | a :: as, b :: bs => Js.beq a b && Js.beqList as bs
  | _, _ => false

def Js.beqEntries : List (String × Js) → List (String × Js) → Bool
  | [], [] => true
  | (k1, v1) :: r1, (k2, v2) :: r2 => k1 == k2 && Js.beq v1 v2 && Js.beqEntries r1 r2
  | _, _ => false

end

/-- `v === undefined`. -/
def jsIsUndefined : Js → Bool
  | .undef => true
  | _ => false

/-- `typeof v === 'object'` (true for null, arrays and plain objects). -/
def Js.typeofObject : Js → Bool
  | .null => true
  | .arr _ => true
  | .obj _ => true
  | _ => false

/-- `v === null`. -/
def Js.isNull : Js → Bool
  | .null => true
  | _ => false

/-- `Array.isArray(v)`. -/
def Js.isArray : Js → Bool
  | .arr _ => true
  | _ => false

/-- `Object.keys(v).length` (0 for non-objects). -/
def Js.keyCount : Js → Nat
  | .obj fields => fields.length
  | _ => 0

/-- The test guarding the `continue` in `cleanParameters`:
`typeof v === 'object' && v !== null && !Array.isArray(v) && Object.keys(v).length === 0`. -/
def isSkippableEmptyObject (v : Js) : Bool :=
  v.typeofObject && !v.isNull && !v.isArray && v.keyCount == 0

mutual

/-- utils.ts `cleanParameters`: recursively drops `undefined` array elements,
`undefined` object values and (recursively cleaned) empty object values. -/
def cleanParameters : Js → Js
  | .undef => .undef
  | .null => .null
  | .boolean b => .boolean b
  | .number n => .number n
  | .str s => .str s
  | .arr elems => .arr ((cleanMap elems).filter (fun item => !jsIsUndefined item))
  | .obj fields => .obj (cleanEntries fields)

/-- `obj.map((item) => cleanParameters(item))` on an array. -/
def cleanMap : List Js → List Js
  | [] => []
  | item :: rest => cleanParameters item :: cleanMap rest

/-- The `for (const [key, value] of Object.entries(obj))` accumulation loop of
`cleanParameters`. -/
def cleanEntries : List (String × Js) → List (String × Js)
  | [] => []
  | (key, value) :: rest =>
    let cleanedValue := cleanParameters value
    if !jsIsUndefined cleanedValue then
      if isSkippableEmptyObject cleanedValue then
        cleanEntries rest
      else
        (key, cleanedValue) :: cleanEntries rest
    else
      cleanEntries rest

end

example : cleanParameters (Js.obj [("a", .undef), ("b", .obj [("c", .undef)]), ("d", .number 1)])
    = Js.obj [("d", .number 1)] := by rfl

example : cleanParameters (Js.arr [.undef, .number 2, .obj []])
    = Js.arr [.number 2, .obj []] := by rfl

/-! Induction principle and decidable equality for `Js`. -/

theorem Js.inductionOn {motive : Js → Prop}
    (undef : motive .undef) (null : motive .null)
    (boolean : ∀ b, motive (.boolean b)) (number : ∀ n, motive (.number n))
    (str : ∀ s, motive (.str s))
    (arr : ∀ elems, (∀ x ∈ elems, motive x) → motive (.arr elems))
    (obj : ∀ fields, (∀ p ∈ fields, motive p.2) → motive (.obj fields)) :
    ∀ t, motive t := by
  have key : ∀ (n : Nat) (t : Js), sizeOf t < n → motive t := by
    intro n
    induction n with
    | zero => intro t ht; omega
    | succ n ih =>
      intro t ht
      cases t with
      | undef => exact undef
      | null => exact null
      | boolean b => exact boolean b
      | number m => exact number m
      | str s => exact str s
      | arr elems =>
        refine arr elems (fun x hx => ih x ?_)
        have h1 : sizeOf x < sizeOf elems := List.sizeOf_lt_of_mem hx
        have h2 : sizeOf (Js.arr elems) = 1 + sizeOf elems := by simp
        omega
      | obj fields =>
        refine obj fields (fun p hp => ih p.2 ?_)
        have h1 : sizeOf p < sizeOf fields := List.sizeOf_lt_of_mem hp
        have h2 : sizeOf (Js.obj fields) = 1 + sizeOf fields := by simp
        have h3 : sizeOf p.2 < sizeOf p := by
          obtain ⟨k, v⟩ := p
          simp only [Prod.mk.sizeOf_spec]
          omega
        omega
  exact fun t => key (sizeOf t + 1) t (by omega)

theorem Js.beqList_iff (xs : List Js)
    (h : ∀ x ∈ xs, ∀ b, (Js.beq x b = true) ↔ x = b) :
    ∀ ys, (Js.beqList xs ys = true) ↔ xs = ys := by
  induction xs with
  | nil => intro ys; cases ys <;> simp [Js.beqList]
  | cons x xs ihx =>
    intro ys
    cases ys with
    | nil => simp [Js.beqList]
    | cons y ys =>
      have hx := h x (by simp) y
      have hxs := ihx (fun z hz b => h z (by simp [hz]) b) ys
      simp [Js.beqList, hx, hxs]

theorem Js.beqEntries_iff (xs : List (String × Js))
    (h : ∀ p ∈ xs, ∀ b, (Js.beq p.2 b = true) ↔ p.2 = b) :
    ∀ ys, (Js.beqEntries xs ys = true) ↔ xs = ys := by
  induction xs with
  | nil => intro ys; cases ys <;> simp [Js.beqEntries]
  | cons p xs ihx =>
    intro ys
    obtain ⟨k, v⟩ := p
    cases ys with
    | nil => simp [Js.beqEntries]
    | cons q ys =>
      obtain ⟨k2, v2⟩ := q
      have hv := h (k, v) (by simp) v2
      have hxs := ihx (fun z hz b => h z (by simp [hz]) b) ys
      simp [Js.beqEntries, hv, hxs]

theorem Js.beq_iff_eq : ∀ (a b : Js), (Js.beq a b = true) ↔ a = b := by
  intro a
  induction a using Js.inductionOn with
  | undef => intro b; cases b <;> simp [Js.beq]
  | null => intro b; cases b <;> simp [Js.beq]
  | boolean x => intro b; cases b <;> simp [Js.beq]
  | number x => intro b; cases b <;> simp [Js.beq]
  | str x => intro b; cases b <;> simp [Js.beq]
  | arr elems ih =>
    intro b
    cases b <;> simp [Js.beq, Js.beqList_iff elems ih]
  | obj fields ih =>
    intro b
    cases b <;> simp [Js.beq, Js.beqEntries_iff fields ih]

instance : DecidableEq Js := fun a b => decidable_of_iff _ (Js.beq_iff_eq a b)

instance {A B : Type} [DecidableEq A] [DecidableEq B] : DecidableEq (Except A B) :=
  fun x y =>
    match x, y with
    | .error a, .error b =>
      if h : a = b then .isTrue (by rw [h]) else .isFalse (fun he => h (Except.error.inj he))
    | .ok a, .ok b =>
      if h : a = b then .isTrue (by rw [h]) else .isFalse (fun he => h (Except.ok.inj he))
    | .error _, .ok _ => .isFalse (fun he => Except.noConfusion he)
    | .ok _, .error _ => .isFalse (fun he => Except.noConfusion he)


/-! Lemmas about `cleanParameters`. -/

theorem cleanMap_eq_map (elems : List Js) : cleanMap elems = elems.map cleanParameters := by
  induction elems with
  | nil => rfl
  | cons x xs ih => simp [cleanMap, ih]

theorem isSkippableEmptyObject_iff (v : Js) :
    isSkippableEmptyObject v = true ↔ v = Js.obj [] := by
  cases v <;>
    simp [isSkippableEmptyObject, Js.typeofObject, Js.isNull, Js.isArray, Js.keyCount]

theorem jsIsUndefined_iff (v : Js) : jsIsUndefined v = true ↔ v = Js.undef := by
  cases v <;> simp [jsIsUndefined]

/-- Every entry of `cleanEntries fields` is the recursively cleaned value of
an entry of `fields` with the same key, is not `undefined`, and is not an
empty object. -/
theorem cleanEntries_mem (fields : List (String × Js)) :
    ∀ p ∈ cleanEntries fields,
      (∃ v0, (p.1, v0) ∈ fields ∧ p.2 = cleanParameters v0) ∧
        jsIsUndefined p.2 = false ∧ isSkippableEmptyObject p.2 = false := by
  induction fields with
  | nil => intro p hp; simp [cleanEntries] at hp
  | cons q rest ih =>
    obtain ⟨k, v⟩ := q
    intro p hp
    simp only [cleanEntries] at hp
    by_cases h1 : jsIsUndefined (cleanParameters v) = true
    · simp [h1] at hp
      obtain ⟨⟨v0, hv0, hv0e⟩, h2, h3⟩ := ih p hp
      exact ⟨⟨v0, by simp [hv0], hv0e⟩, h2, h3⟩
    · simp only [Bool.not_eq_true] at h1
      by_cases h2 : isSkippableEmptyObject (cleanParameters v) = true
      · simp [h1, h2] at hp
        obtain ⟨⟨v0, hv0, hv0e⟩, h3, h4⟩ := ih p hp
        exact ⟨⟨v0, by simp [hv0], hv0e⟩, h3, h4⟩
      · simp only [Bool.not_eq_true] at h2
        simp [h1, h2] at hp
        rcases hp with heq | hmem
        · subst heq
          exact ⟨⟨v, by simp, rfl⟩, h1, h2⟩
        · obtain ⟨⟨v0, hv0, hv0e⟩, h3, h4⟩ := ih p hmem
          exact ⟨⟨v0, by simp [hv0], hv0e⟩, h3, h4⟩

/-- `cleanEntries` is the identity on entry lists whose values are already
fixed points of cleaning, not `undefined`, and not empty objects. -/
theorem cleanEntries_of_fixed (l : List (String × Js))
    (h : ∀ p ∈ l, cleanParameters p.2 = p.2 ∧ jsIsUndefined p.2 = false ∧
      isSkippableEmptyObject p.2 = false) :
    cleanEntries l = l := by
  induction l with
  | nil => rfl
  | cons q rest ih =>
    obtain ⟨k, v⟩ := q
    obtain ⟨hfix, hundef, hobj⟩ := h (k, v) (by simp)
    simp [cleanEntries, hfix, hundef, hobj]
    exact ih (fun p hp => h p (by simp [hp]))

mutual

/-- The sanitization property the spec ascribes to cleaned trees: nowhere in
the tree is an object key bound to `undefined` or to an empty non-array
object, and no array contains an `undefined` element. -/
def sanitized : Js → Bool
  | .arr elems => sanitizedList elems
  | .obj fields => sanitizedEntries fields
  | _ => true

def sanitizedList : List Js → Bool
  | [] => true
  | x :: xs => !jsIsUndefined x && sanitized x && sanitizedList xs

def sanitizedEntries : List (String × Js) → Bool
  | [] => true
  | (_, v) :: rest =>
    !jsIsUndefined v && !isSkippableEmptyObject v && sanitized v && sanitizedEntries rest

end

theorem sanitizedList_iff (xs : List Js) :
    sanitizedList xs = true ↔
      ∀ x ∈ xs, jsIsUndefined x = false ∧ sanitized x = true := by
  induction xs with
  | nil => simp [sanitizedList]
  | cons x xs ih => simp [sanitizedList, ih]

theorem sanitizedEntries_iff (l : List (String × Js)) :
    sanitizedEntries l = true ↔
      ∀ p ∈ l, jsIsUndefined p.2 = false ∧ isSkippableEmptyObject p.2 = false ∧
        sanitized p.2 = true := by
  induction l with
  | nil => simp [sanitizedEntries]
  | cons q rest ih =>
    obtain ⟨k, v⟩ := q
    simp [sanitizedEntries, ih]
    tauto

/-- C3: `cleanParameters` is idempotent on every parameter tree. -/
theorem cleanParameters_idempotent (t : Js) :
    cleanParameters (cleanParameters t) = cleanParameters t := by
  induction t using Js.inductionOn with
  | undef => rfl
  | null => rfl
  | boolean b => rfl
  | number n => rfl
  | str s => rfl
  | arr elems ih =>
    simp only [cleanParameters]
    rw [cleanMap_eq_map, cleanMap_eq_map]
    have hmem : ∀ y ∈ (elems.map cleanParameters).filter (fun i => !jsIsUndefined i),
        cleanParameters y = y ∧ (!jsIsUndefined y) = true := by
      intro y hy
      have hy1 := List.mem_filter.mp hy
      obtain ⟨x, hx, hxe⟩ := List.mem_map.mp hy1.1
      subst hxe
      exact ⟨ih x hx, hy1.2⟩
    have hmap : ((elems.map cleanParameters).filter
          (fun i => !jsIsUndefined i)).map cleanParameters
        = (elems.map cleanParameters).filter (fun i => !jsIsUndefined i) := by
      calc ((elems.map cleanParameters).filter (fun i => !jsIsUndefined i)).map
            cleanParameters
          = ((elems.map cleanParameters).filter (fun i => !jsIsUndefined i)).map id :=
            List.map_congr_left (fun y hy => (hmem y hy).1)
        _ = (elems.map cleanParameters).filter (fun i => !jsIsUndefined i) :=
            List.map_id _
    rw [hmap]
    rw [List.filter_eq_self.mpr (fun y hy => (hmem y hy).2)]
  | obj fields ih =>
    simp only [cleanParameters]
    congr 1
    refine cleanEntries_of_fixed _ (fun p hp => ?_)
    obtain ⟨⟨v0, hv0, hv0e⟩, h2, h3⟩ := cleanEntries_mem fields p hp
    refine ⟨?_, h2, h3⟩
    rw [hv0e]
    exact ih (p.1, v0) hv0

/-- C4: cleaning produces sanitized trees — no object key bound to
`undefined`, none bound to an empty non-array object, arrays contain exactly
their non-`undefined` recursively cleaned elements in original order, and
all other values pass through unchanged. -/
theorem cleanParameters_output_shape :
    (∀ t, sanitized (cleanParameters t) = true)
    ∧ (∀ elems, cleanParameters (.arr elems)
        = .arr ((elems.map cleanParameters).filter (fun i => !jsIsUndefined i)))
    ∧ cleanParameters .undef = .undef
    ∧ cleanParameters .null = .null
    ∧ (∀ b, cleanParameters (.boolean b) = .boolean b)
    ∧ (∀ n, cleanParameters (.number n) = .number n)
    ∧ (∀ s, cleanParameters (.str s) = .str s) := by
  refine ⟨?_, fun elems => by simp [cleanParameters, cleanMap_eq_map],
    rfl, rfl, fun b => rfl, fun n => rfl, fun s => rfl⟩
  intro t
  induction t using Js.inductionOn with
  | undef => rfl
  | null => rfl
  | boolean b => rfl
  | number n => rfl
  | str s => rfl
  | arr elems ih =>
    simp only [cleanParameters, sanitized]
    rw [cleanMap_eq_map, sanitizedList_iff]
    intro y hy
    have hy1 := List.mem_filter.mp hy
    obtain ⟨x, hx, hxe⟩ := List.mem_map.mp hy1.1
    subst hxe
    refine ⟨by simpa using hy1.2, ih x hx⟩
  | obj fields ih =>
    simp only [cleanParameters, sanitized]
    rw [sanitizedEntries_iff]
    intro p hp
    obtain ⟨⟨v0, hv0, hv0e⟩, h2, h3⟩ := cleanEntries_mem fields p hp
    refine ⟨h2, h3, ?_⟩
    rw [hv0e]
    exact ih (p.1, v0) hv0

/-! Credential resolution: utils.ts `getAuthHeadersAndEndpoint`. -/

/-- The node's authentication selector. -/
inductive McpAuthenticationOption where
  | bearerAuth
  | mcpOAuth2Api
deriving DecidableEq

/-- Stored bearer credentials (`forestMcpApi`): both fields optional strings. -/
structure BearerCredentials where
  serverUrl : Option String
  token : Option String
deriving DecidableEq

/-- The nested OAuth token data of the `forestMcpOAuth2Api` credential. -/
structure OAuthTokenData where
  access_token : Option String
deriving DecidableEq

/-- Stored OAuth2 credentials (`forestMcpOAuth2Api`). -/
structure OAuth2Credentials where
  oauthTokenData : Option OAuthTokenData
  serverUrl : Option String
deriving DecidableEq

/-- The return shape of `getAuthHeadersAndEndpoint`:
optional headers and optional endpoint URL; both absent means
"not configured yet". -/
structure ResolvedEndpoint where
  headers : Option (List (String × String))
  endpointUrl : Option String
deriving DecidableEq

/-- A credential lookup (`ctx.getCredentials`): it may throw (`.error`),
return a null/absent record (`.ok none`) or return a record (`.ok (some r)`).
The n8n store performs OAuth token refresh inside this call; a refresh
failure surfaces as `.error`. -/
def CredentialFetch (α : Type) := Except Unit (Option α)

/-- JS `s.trim()`: strip leading and trailing whitespace (modelled over the
character list so that it evaluates inside the kernel). -/
def jsTrim (s : String) : String :=
  ⟨((s.data.dropWhile Char.isWhitespace).reverse.dropWhile Char.isWhitespace).reverse⟩

/-- JS `s.endsWith(suffix)`. -/
def jsEndsWith (s suffix : String) : Bool :=
  suffix.data.isSuffixOf s.data

/-- JS `s.startsWith(pre)`. -/
def jsStartsWith (s pre : String) : Bool :=
  pre.data.isPrefixOf s.data

/-- JS `s.toLowerCase()` (ASCII case folding). -/
def jsToLower (s : String) : String :=
  ⟨s.data.map Char.toLower⟩

/-- Containment of `pat` as a contiguous sublist. -/
def charsInfix (pat : List Char) : List Char → Bool
  | [] => pat.isEmpty
  | c :: rest => pat.isPrefixOf (c :: rest) || charsInfix pat rest

/-- JS `s.includes(pat)`: substring containment. -/
def jsIncludes (s pat : String) : Bool :=
  charsInfix pat.data s.data

/-- `x?.trim() || ''`: optional chaining plus the falsy-or default. -/
def trimOrEmpty : Option String → String
  | some s => jsTrim s
  | none => ""

/-- `serverUrl.endsWith('/mcp') ? serverUrl : serverUrl + '/mcp'`. -/
def appendMcpSuffix (serverUrl : String) : String :=
  if jsEndsWith serverUrl "/mcp" then serverUrl else serverUrl ++ "/mcp"

/-- utils.ts `getAuthHeadersAndEndpoint` (the version with trimming): resolves
the selected credential set into headers and an endpoint URL, failing soft
(empty result) when credentials are missing, throwing, null, or the
(access) token trims to the empty string. -/
def getAuthHeadersAndEndpoint (authentication : McpAuthenticationOption)
    (bearerFetch : CredentialFetch BearerCredentials)
    (oauthFetch : CredentialFetch OAuth2Credentials) : ResolvedEndpoint :=
  match authentication with
  | .bearerAuth =>
    match bearerFetch with
    | .error _ => { headers := none, endpointUrl := none }
    | .ok none => { headers := none, endpointUrl := none }
    | .ok (some result) =>
      let serverUrl := trimOrEmpty result.serverUrl
      let endpointUrl := appendMcpSuffix serverUrl
      let token := trimOrEmpty result.token
      if token = "" then { headers := none, endpointUrl := none }
      else
        { headers := some [("Authorization", "Bearer " ++ token)],
          endpointUrl := some endpointUrl }
  | .mcpOAuth2Api =>
    match oauthFetch with
    | .error _ => { headers := none, endpointUrl := none }
    | .ok none => { headers := none, endpointUrl := none }
    | .ok (some result) =>
      let serverUrl := trimOrEmpty result.serverUrl
      let endpointUrl := appendMcpSuffix serverUrl
      let accessToken := trimOrEmpty (result.oauthTokenData.bind (·.access_token))
      if accessToken = "" then { headers := none, endpointUrl := none }
      else
        { headers := some [("Authorization", "Bearer " ++ accessToken)],
          endpointUrl := some endpointUrl }

example :
    getAuthHeadersAndEndpoint .bearerAuth
      (.ok (some { serverUrl := some "https://x.test", token := some "abc" }))
      (.ok none)
    = { headers := some [("Authorization", "Bearer abc")],
        endpointUrl := some "https://x.test/mcp" } := by decide

/-- C5: bearer-mode resolution trims both stored fields, soft-fails iff the
token trims to empty, appends the `/mcp` suffix unless already present, and
emits the bearer Authorization header; concretely, serverUrl
`https://x.test` with token `abc` resolves to endpoint `https://x.test/mcp`
with header `Authorization: Bearer abc`, and an OAuth2 record with missing
`oauthTokenData` resolves to the empty result. -/
theorem getAuthHeadersAndEndpoint_bearer_spec :
    (∀ (su tok : Option String) (oauthFetch : CredentialFetch OAuth2Credentials),
      getAuthHeadersAndEndpoint .bearerAuth (.ok (some ⟨su, tok⟩)) oauthFetch
        = if trimOrEmpty tok = "" then { headers := none, endpointUrl := none }
          else { headers := some [("Authorization", "Bearer " ++ trimOrEmpty tok)],
                 endpointUrl := some (appendMcpSuffix (trimOrEmpty su)) })
    ∧ (∀ (su : String),
        appendMcpSuffix su = if jsEndsWith su "/mcp" then su else su ++ "/mcp")
    ∧ getAuthHeadersAndEndpoint .bearerAuth
        (.ok (some { serverUrl := some "https://x.test", token := some "abc" }))
        (.ok none)
      = { headers := some [("Authorization", "Bearer abc")],
          endpointUrl := some "https://x.test/mcp" }
    ∧ (∀ (su : Option String) (bearerFetch : CredentialFetch BearerCredentials),
        getAuthHeadersAndEndpoint .mcpOAuth2Api bearerFetch
          (.ok (some { oauthTokenData := none, serverUrl := su }))
        = { headers := none, endpointUrl := none }) := by
  refine ⟨fun su tok oauthFetch => ?_, fun su => rfl, by decide,
    fun su bearerFetch => rfl⟩
  by_cases h : trimOrEmpty tok = "" <;>
    simp [getAuthHeadersAndEndpoint, h]

/-- C10: in bearer mode the soft-fail check is keyed only on the token — a
record whose token trims non-empty but whose serverUrl is absent or
whitespace-only still resolves, with endpoint URL `/mcp` (the suffix appended
to the empty string) and the Authorization header. -/
theorem getAuthHeadersAndEndpoint_bearer_ignores_missing_serverUrl
    (su tok : Option String) (oauthFetch : CredentialFetch OAuth2Credentials)
    (hsu : trimOrEmpty su = "") (htok : trimOrEmpty tok ≠ "") :
    getAuthHeadersAndEndpoint .bearerAuth (.ok (some ⟨su, tok⟩)) oauthFetch
      = { headers := some [("Authorization", "Bearer " ++ trimOrEmpty tok)],
          endpointUrl := some "/mcp" } := by
  have h1 : appendMcpSuffix (trimOrEmpty su) = "/mcp" := by
    rw [hsu]
    decide
  simp [getAuthHeadersAndEndpoint, htok, h1]

/-- Witness for C10: serverUrl of blanks and token " abc " resolve to
endpoint `/mcp` with header `Authorization: Bearer abc`. -/
theorem getAuthHeadersAndEndpoint_bearer_ignores_missing_serverUrl_witness :
    getAuthHeadersAndEndpoint .bearerAuth
      (.ok (some ⟨some "   ", some " abc "⟩)) (.ok none)
      = { headers := some [("Authorization", "Bearer abc")],
          endpointUrl := some "/mcp" } := by
  have h := getAuthHeadersAndEndpoint_bearer_ignores_missing_serverUrl
    (some "   ") (some " abc ") (.ok none) (by decide) (by decide)
  simpa using h

/-! Session connection: utils.ts `normalizeAndValidateUrl`, `errorHasCode`,
`connectMcpClient`, `mapToNodeOperationError`. -/

/-- utils.ts `Result<T, E>`. -/
inductive Result (T E : Type) where
  | ok (result : T)
  | error (e : E)
deriving DecidableEq

def createResultOk {T E : Type} (result : T) : Result T E := .ok result

def createResultError {T E : Type} (e : E) : Result T E := .error e

/-- A JS value thrown by the external transport or URL parser: either a
non-object (for which `errorHasCode` is vacuously false) or an object with
an optional numeric `code` field (the value of `Number(error.code)` when that
is a number) and an optional string `message` field. -/
inductive ThrownValue where
  | primitive (s : String)
  | objError (code : Option Int) (message : Option String)
deriving DecidableEq

/-- utils.ts `errorHasCode`: the thrown value is an object and either its
`code` field coerces to the given number, or its `message` contains the
decimal rendering of the number as a substring. -/
def errorHasCode (error : ThrownValue) (code : Int) : Bool :=
  match error with
  | .primitive _ => false
  | .objError c message =>
    (match c with
     | some v => v == code
     | none => false)
    || (match message with
        | some msg => jsIncludes msg (toString code)
        | none => false)

def isUnauthorizedError (error : ThrownValue) : Bool := errorHasCode error 401

def isForbiddenError (error : ThrownValue) : Bool := errorHasCode error 403

def isNotFoundError (error : ThrownValue) : Bool := errorHasCode error 404

/-- utils.ts `ConnectMcpClientError`. -/
inductive ConnectMcpClientError where
  | invalid_url (e : ThrownValue)
  | connection (e : ThrownValue)
  | auth (e : ThrownValue)
  | not_found (e : ThrownValue)
deriving DecidableEq

/-- utils.ts `mapToNodeOperationError`, reduced to the user-facing message it
selects (the NodeOperationError wrapper is host machinery). -/
def mapToNodeOperationError (error : ConnectMcpClientError) : String :=
  match error with
  | .invalid_url _ =>
    "Could not connect to your Forest MCP server. The provided URL is invalid."
  | .auth _ =>
    "Could not connect to your Forest MCP server. Authentication failed."
  | .not_found _ =>
    "MCP server not found. The MCP server has not been setup on your Forest agent. See https://docs.forestadmin.com/developer-guide-agents-nodejs/agent-customization/ai/mcp-server"
  | .connection _ =>
    "Could not connect to your Forest MCP server"

/-- The regex test `/^https?:\/\//i.test(input)`. -/
def hasHttpScheme (input : String) : Bool :=
  jsStartsWith (jsToLower input) "http://" || jsStartsWith (jsToLower input) "https://"

/-- The `withProtocol` normalization inside `normalizeAndValidateUrl`. -/
def withHttpsProtocol (input : String) : String :=
  if !hasHttpScheme input then "https://" ++ input else input

/-- utils.ts `normalizeAndValidateUrl`. The WHATWG URL parser (`new URL`) is
an external collaborator, passed as an oracle `urlParse` that either accepts
the string or throws. -/
def normalizeAndValidateUrl (urlParse : String → Except ThrownValue Unit)
    (input : String) : Result String ThrownValue :=
  let withProtocol := withHttpsProtocol input
  match urlParse withProtocol with
  | .ok _ => createResultOk withProtocol
  | .error e => createResultError e

/-- utils.ts `connectMcpClient`. The StreamableHTTP transport connect is the
oracle `transportConnect` (headers and client identity do not affect the
modelled control flow beyond the oracle's outcome). -/
def connectMcpClient (urlParse : String → Except ThrownValue Unit)
    (transportConnect : String → Except ThrownValue Unit)
    (endpointUrl : String) : Result Unit ConnectMcpClientError :=
  match normalizeAndValidateUrl urlParse endpointUrl with
  | .error e => createResultError (.invalid_url e)
  | .ok url =>
    match transportConnect url with
    | .ok _ => createResultOk ()
    | .error error =>
      if isUnauthorizedError error || isForbiddenError error then
        createResultError (.auth error)
      else if isNotFoundError error then
        createResultError (.not_found error)
      else
        createResultError (.connection error)

example : errorHasCode (.objError (some 401) none) 401 = true := by decide

example : errorHasCode (.objError none (some "HTTP 404: not found")) 404 = true := by decide

example : withHttpsProtocol "example.com/mcp" = "https://example.com/mcp" := by decide

example : withHttpsProtocol "HTTPS://x.test/mcp" = "HTTPS://x.test/mcp" := by decide

/-- C6: connect-failure classification — a transport error carrying 401 or
403 (numeric `code` field or message substring) classifies as auth, one
carrying 404 (and neither 401 nor 403) as not_found, anything else as a
generic connection error; the classification is exhaustive, and a successful
parse and connect is never classified as an error. -/
theorem connectMcpClient_classifies_errors
    (urlParse : String → Except ThrownValue Unit)
    (transportConnect : String → Except ThrownValue Unit)
    (endpointUrl url : String)
    (hnorm : normalizeAndValidateUrl urlParse endpointUrl = Result.ok url) :
    (∀ e, transportConnect url = Except.error e →
      ((errorHasCode e 401 = true ∨ errorHasCode e 403 = true) →
        connectMcpClient urlParse transportConnect endpointUrl
          = Result.error (.auth e))
      ∧ (errorHasCode e 401 = false → errorHasCode e 403 = false →
          errorHasCode e 404 = true →
          connectMcpClient urlParse transportConnect endpointUrl
            = Result.error (.not_found e))
      ∧ (errorHasCode e 401 = false → errorHasCode e 403 = false →
          errorHasCode e 404 = false →
          connectMcpClient urlParse transportConnect endpointUrl
            = Result.error (.connection e))
      ∧ (connectMcpClient urlParse transportConnect endpointUrl
            = Result.error (.auth e)
         ∨ connectMcpClient urlParse transportConnect endpointUrl
            = Result.error (.not_found e)
         ∨ connectMcpClient urlParse transportConnect endpointUrl
            = Result.error (.connection e)))
    ∧ (transportConnect url = Except.ok () →
        connectMcpClient urlParse transportConnect endpointUrl = Result.ok ()) := by
  constructor
  · intro e htc
    refine ⟨?_, ?_, ?_, ?_⟩
    · rintro (h401 | h403)
      · simp [connectMcpClient, hnorm, htc, isUnauthorizedError, isForbiddenError,
          h401, createResultError]
      · simp [connectMcpClient, hnorm, htc, isUnauthorizedError, isForbiddenError,
          h403, createResultError]
    · intro h401 h403 h404
      simp [connectMcpClient, hnorm, htc, isUnauthorizedError, isForbiddenError,
        isNotFoundError, h401, h403, h404, createResultError]
    · intro h401 h403 h404
      simp [connectMcpClient, hnorm, htc, isUnauthorizedError, isForbiddenError,
        isNotFoundError, h401, h403, h404, createResultError]
    · by_cases h401 : errorHasCode e 401 = true
      · left
        simp [connectMcpClient, hnorm, htc, isUnauthorizedError, h401, createResultError]
      · by_cases h403 : errorHasCode e 403 = true
        · left
          simp [connectMcpClient, hnorm, htc, isUnauthorizedError, isForbiddenError,
            h403, createResultError]
        · by_cases h404 : errorHasCode e 404 = true
          · right; left
            simp [connectMcpClient, hnorm, htc, isUnauthorizedError, isForbiddenError,
              isNotFoundError, h401, h403, h404, createResultError]
          · right; right
            simp [connectMcpClient, hnorm, htc, isUnauthorizedError, isForbiddenError,
              isNotFoundError, h401, h403, h404, createResultError]
  · intro htc
    simp [connectMcpClient, hnorm, htc, createResultOk]

/-- Witness for C6: with a URL that parses, a structured-status 401 error
classifies as auth, and a message-embedded 404 classifies as not_found. -/
theorem connectMcpClient_classifies_errors_witness :
    (connectMcpClient (fun _ => Except.ok ())
        (fun _ => Except.error (.objError (some 401) none)) "example.com"
      = Result.error (.auth (.objError (some 401) none)))
    ∧ (connectMcpClient (fun _ => Except.ok ())
        (fun _ => Except.error (.objError none (some "Error POSTing: 404"))) "example.com"
      = Result.error (.not_found (.objError none (some "Error POSTing: 404"))))
    ∧ (connectMcpClient (fun _ => Except.ok ()) (fun _ => Except.ok ()) "example.com"
      = Result.ok ()) := by
  refine ⟨?_, ?_, ?_⟩
  · exact ((connectMcpClient_classifies_errors (fun _ => Except.ok ())
      (fun _ => Except.error (.objError (some 401) none)) "example.com"
      "https://example.com" (by decide)).1 _ rfl).1 (Or.inl (by decide))
  · exact (((connectMcpClient_classifies_errors (fun _ => Except.ok ())
      (fun _ => Except.error (.objError none (some "Error POSTing: 404"))) "example.com"
      "https://example.com" (by decide)).1 _ rfl).2.1 (by decide) (by decide) (by decide))
  · exact (connectMcpClient_classifies_errors (fun _ => Except.ok ())
      (fun _ => Except.ok ()) "example.com" "https://example.com" (by decide)).2 rfl

/-- C8: URL normalization prepends `https://` to endpoint strings lacking an
http(s) scheme and leaves already-schemed strings unchanged; an input whose
normalized form fails to parse yields the invalid_url error kind; and
`example.com/mcp` normalizes to `https://example.com/mcp`. -/
theorem normalizeAndValidateUrl_spec :
    (∀ s, hasHttpScheme s = false → withHttpsProtocol s = "https://" ++ s)
    ∧ (∀ s, hasHttpScheme s = true → withHttpsProtocol s = s)
    ∧ withHttpsProtocol "example.com/mcp" = "https://example.com/mcp"
    ∧ (∀ (urlParse : String → Except ThrownValue Unit) (s : String) (e : ThrownValue),
        urlParse (withHttpsProtocol s) = Except.error e →
          normalizeAndValidateUrl urlParse s = Result.error e
          ∧ ∀ transportConnect,
              connectMcpClient urlParse transportConnect s
                = Result.error (.invalid_url e))
    ∧ (∀ (urlParse : String → Except ThrownValue Unit) (s : String),
        urlParse (withHttpsProtocol s) = Except.ok () →
          normalizeAndValidateUrl urlParse s
            = Result.ok (withHttpsProtocol s)) := by
  refine ⟨fun s h => by simp [withHttpsProtocol, h], fun s h => by simp [withHttpsProtocol, h],
    by decide, ?_, ?_⟩
  · intro urlParse s e h
    refine ⟨?_, fun transportConnect => ?_⟩
    · simp [normalizeAndValidateUrl, h, createResultError]
    · simp [connectMcpClient, normalizeAndValidateUrl, h, createResultError]
  · intro urlParse s h
    simp [normalizeAndValidateUrl, h, createResultOk]

/-- Witness for C8: a scheme-less string gains `https://`, a schemed string is
unchanged, and a parser that rejects the normalized string produces the
invalid_url connection-error kind. -/
theorem normalizeAndValidateUrl_spec_witness :
    withHttpsProtocol "example.com/mcp" = "https://example.com/mcp"
    ∧ withHttpsProtocol "http://a.b" = "http://a.b"
    ∧ normalizeAndValidateUrl (fun _ => Except.error (.primitive "TypeError: Invalid URL"))
        "%%" = Result.error (.primitive "TypeError: Invalid URL")
    ∧ connectMcpClient (fun _ => Except.error (.primitive "TypeError: Invalid URL"))
        (fun _ => Except.ok ()) "%%"
        = Result.error (.invalid_url (.primitive "TypeError: Invalid URL")) := by
  refine ⟨normalizeAndValidateUrl_spec.2.2.1,
    normalizeAndValidateUrl_spec.2.1 "http://a.b" (by decide), ?_, ?_⟩
  · exact (normalizeAndValidateUrl_spec.2.2.2.1
      (fun _ => Except.error (.primitive "TypeError: Invalid URL")) "%%"
      (.primitive "TypeError: Invalid URL") rfl).1
  · exact (normalizeAndValidateUrl_spec.2.2.2.1
      (fun _ => Except.error (.primitive "TypeError: Invalid URL")) "%%"
      (.primitive "TypeError: Invalid URL") rfl).2 (fun _ => Except.ok ())

/-! Schema mapping: resourceMapping.ts `jsonSchemaTypeToFieldType` and
`convertJsonSchemaToResourceMapperFields`. -/

/-- A JSON-Schema `type` declaration: a single type name or an array of
type names. -/
inductive SchemaType where
  | single (t : String)
  | multiple (ts : List String)
deriving DecidableEq

/-- resourceMapping.ts `jsonSchemaTypeToFieldType`:
`Array.isArray(type) ? type[0] : type`, then the switch with default
'string'. -/
def jsonSchemaTypeToFieldType (type : SchemaType) : String :=
  let primaryType := match type with
    | .multiple ts => ts.head?
    | .single t => some t
  match primaryType with
  | some "string" => "string"
  | some "number" => "number"
  | some "integer" => "number"
  | some "boolean" => "boolean"
  | some "array" => "array"
  | some "object" => "object"
  | _ => "string"

/-- The slice of a JSONSchema7 property schema the mapper reads. -/
structure PropertySchema where
  description : Option String
  type : Option SchemaType
  enum : Option (List Js)
deriving DecidableEq

/-- A JSONSchema7Definition: either a boolean schema (skipped by the loop)
or a property schema. -/
inductive SchemaProp where
  | boolSchema (b : Bool)
  | propSchema (s : PropertySchema)
deriving DecidableEq

/-- The slice of a JSONSchema7 object schema the mapper reads. -/
structure JsonSchema where
  type : Option SchemaType
  properties : Option (List (String × SchemaProp))
  required : Option (List String)
deriving DecidableEq

/-- The host's ResourceMapperField descriptor (fields the mapper writes;
`type` kept as a string literal, `options` entries as name/value pairs). -/
structure ResourceMapperField where
  id : String
  displayName : String
  type : String
  required : Bool
  defaultMatch : Bool
  canBeUsedToMatch : Bool
  display : Bool
  defaultValue : Option String
  options : Option (List (String × Js))
deriving DecidableEq

mutual

/-- JS `String(value)` on a `Js` value. -/
def jsString : Js → String
  | .undef => "undefined"
  | .null => "null"
  | .boolean b => if b then "true" else "false"
  | .number n => toString n
  | .str s => s
  | .arr elems => jsStringArrayElems elems
  | .obj _ => "[object Object]"

/-- `Array.prototype.toString` body: `join(',')` with null and undefined
elements rendered as the empty string. -/
def jsStringArrayElems : List Js → String
  | [] => ""
  | [x] =>
    match x with
    | .undef => ""
    | .null => ""
    | v => jsString v
  | x :: rest =>
    (match x with
     | .undef => ""
     | .null => ""
     | v => jsString v) ++ "," ++ jsStringArrayElems rest

end

/-- The loop body of `convertJsonSchemaToResourceMapperFields` for one
non-boolean property: displayName composition, primitive type mapping,
required flagging, object/array default values, and the enum override. -/
def buildField (key : String) (propertySchema : PropertySchema)
    (requiredFields : List String) : ResourceMapperField :=
  let displayName := match propertySchema.description with
    | some d => if d = "" then key else key ++ " - " ++ d
    | none => key
  let fieldType := jsonSchemaTypeToFieldType (match propertySchema.type with
    | some t => t
    | none => .single "string")
  let field0 : ResourceMapperField :=
    { id := key, displayName := displayName, type := fieldType,
      required := requiredFields.contains key, defaultMatch := false,
      canBeUsedToMatch := false, display := true,
      defaultValue := none, options := none }
  let field1 :=
    if fieldType = "object" then { field0 with defaultValue := some "\x7b\x7d" }
    else if fieldType = "array" then { field0 with defaultValue := some "[]" }
    else field0
  match propertySchema.enum with
  | some es =>
    if 0 < es.length then
      { field1 with
        options := some (es.map (fun value => (jsString value, value))),
        type := "options" }
    else field1
  | none => field1

/-- The `for (const [key, value] of Object.entries(schema.properties))` loop:
boolean schemas are skipped, the rest produce one field each, in order. -/
def convertProperties (requiredFields : List String) :
    List (String × SchemaProp) → List ResourceMapperField
  | [] => []
  | (_, .boolSchema _) :: rest => convertProperties requiredFields rest
  | (key, .propSchema ps) :: rest =>
    buildField key ps requiredFields :: convertProperties requiredFields rest

/-- resourceMapping.ts `convertJsonSchemaToResourceMapperFields`: empty unless
the schema's type is exactly 'object' and it declares properties. -/
def convertJsonSchemaToResourceMapperFields (schema : JsonSchema)
    (requiredFields : List String) : List ResourceMapperField :=
  match schema.type, schema.properties with
  | some (.single "object"), some props => convertProperties requiredFields props
  | _, _ => []

example :
    (buildField "mode" ⟨none, some (.single "string"), some [.str "a", .number 2]⟩ []).type
      = "options" := by decide

/-- C9: a property declaring a non-empty enum maps to a field of type
"options" whose options are exactly one (stringified value, original value)
pair per enum value in original order, overriding the primitive-type
mapping; and the mapper routes every non-boolean property through this
field construction. -/
theorem convert_enum_override (key : String) (ps : PropertySchema)
    (requiredFields : List String) (es : List Js)
    (h1 : ps.enum = some es) (h2 : es ≠ []) :
    (buildField key ps requiredFields).type = "options"
    ∧ (buildField key ps requiredFields).options
        = some (es.map (fun value => (jsString value, value)))
    ∧ (∀ (schema : JsonSchema) props, schema.type = some (.single "object") →
        schema.properties = some props →
        convertJsonSchemaToResourceMapperFields schema requiredFields
          = convertProperties requiredFields props)
    ∧ (∀ rest, convertProperties requiredFields ((key, .propSchema ps) :: rest)
        = buildField key ps requiredFields :: convertProperties requiredFields rest) := by
  have hlen : 0 < es.length := List.length_pos.mpr h2
  refine ⟨?_, ?_, ?_, fun rest => rfl⟩
  · simp only [buildField, h1, if_pos hlen]
  · simp only [buildField, h1, if_pos hlen]
  · intro schema props ht hp
    simp [convertJsonSchemaToResourceMapperFields, ht, hp]

/-- Witness for C9: a number-typed property with enum values "a" and 2 maps
to an options field with entries ("a","a") and ("2",2) in order. -/
theorem convert_enum_override_witness :
    (buildField "mode" ⟨none, some (.single "number"), some [.str "a", .number 2]⟩ []).type
        = "options"
    ∧ (buildField "mode" ⟨none, some (.single "number"), some [.str "a", .number 2]⟩ []).options
        = some [("a", .str "a"), ("2", .number 2)] := by
  have h := convert_enum_override "mode"
    ⟨none, some (.single "number"), some [.str "a", .number 2]⟩ []
    [.str "a", .number 2] rfl (by decide)
  exact ⟨h.1, by rw [h.2.1]; decide⟩

/-! Pagination: utils.ts `getAllTools`. -/

/-- A tool descriptor from the remote catalog. -/
structure McpTool where
  name : String
  description : Option String
  inputSchema : JsonSchema
deriving DecidableEq

/-- One `listTools` response page. -/
structure ListToolsResult where
  tools : List McpTool
  nextCursor : Option String
deriving DecidableEq

/-- JS truthiness of the optional `nextCursor` string (`if (nextCursor)`):
present and non-empty. -/
def cursorTruthy : Option String → Bool
  | some c => !c.data.isEmpty
  | none => false

/-- utils.ts `getAllTools`: fetch a page, and if the response carries a
truthy next cursor, recursively fetch and concatenate (current page first).
The remote session is the oracle `listTools` (which may throw). The `Nat`
fuel bounds recursion depth — the source has no loop guard, so `none` models
a recursion that has not terminated within the given fuel. The result pairs
the flattened tool list with the number of `listTools` invocations made. -/
def getAllTools (listTools : Option String → Except ThrownValue ListToolsResult) :
    Nat → Option String → Option (Except ThrownValue (List McpTool × Nat))
  | 0, _ => none
  | fuel + 1, cursor =>
    match listTools cursor with
    | .error e => some (.error e)
    | .ok r =>
      if cursorTruthy r.nextCursor then
        match getAllTools listTools fuel r.nextCursor with
        | some (.ok (rest, n)) => some (.ok (r.tools ++ rest, n + 1))
        | some (.error e) => some (.error e)
        | none => none
      else
        some (.ok (r.tools, 1))

/-- The session serves, from `cursor`, exactly the given finite chain of
pages: each page in turn, with a truthy next cursor pointing at the next
page and a falsy cursor after the last. -/
def RunsChain (listTools : Option String → Except ThrownValue ListToolsResult) :
    Option String → List (List McpTool) → Prop
  | _, [] => False
  | cursor, page :: rest =>
    ∃ r, listTools cursor = Except.ok r ∧ r.tools = page ∧
      match rest with
      | [] => cursorTruthy r.nextCursor = false
      | _ :: _ => cursorTruthy r.nextCursor = true ∧ RunsChain listTools r.nextCursor rest

/-- C7: over any finite cursor chain, `getAllTools` returns the pages
concatenated in fetch order and calls `listTools` exactly once per page. -/
theorem getAllTools_concatenates
    (listTools : Option String → Except ThrownValue ListToolsResult) :
    ∀ (pages : List (List McpTool)) (cursor : Option String) (fuel : Nat),
      RunsChain listTools cursor pages → pages.length ≤ fuel →
      getAllTools listTools fuel cursor
        = some (.ok (pages.flatten, pages.length)) := by
  intro pages
  induction pages with
  | nil => intro cursor fuel h _; simp [RunsChain] at h
  | cons page rest ih =>
    intro cursor fuel h hfuel
    simp only [RunsChain] at h
    obtain ⟨r, hr, htools, hrest⟩ := h
    match fuel with
    | 0 => simp at hfuel
    | fuel + 1 =>
      cases rest with
      | nil =>
        simp only at hrest
        simp [getAllTools, hr, hrest, htools]
      | cons p2 r2 =>
        obtain ⟨htr, hchain⟩ := hrest
        have hstep := ih r.nextCursor fuel hchain (by simp at hfuel ⊢; omega)
        simp [getAllTools, hr, htr, hstep, htools]

/-- A concrete three-page session: P1 at the start cursor, P2 at "c1",
P3 (no further cursor) at "c2". -/
def chain3Client : Option String → Except ThrownValue ListToolsResult :=
  fun cursor =>
    match cursor with
    | none => .ok ⟨[⟨"t1", none, ⟨none, none, none⟩⟩], some "c1"⟩
    | some c =>
      if c = "c1" then .ok ⟨[⟨"t2", none, ⟨none, none, none⟩⟩], some "c2"⟩
      else if c = "c2" then .ok ⟨[⟨"t3", none, ⟨none, none, none⟩⟩], none⟩
      else .ok ⟨[], none⟩

/-- Witness for C7: on the three-page chain P1 (cursor c1), P2 (cursor c2),
P3 (no cursor), the fetch returns P1+P2+P3 and makes exactly three
`listTools` calls. -/
theorem getAllTools_concatenates_witness :
    getAllTools chain3Client 3 none
      = some (.ok ([⟨"t1", none, ⟨none, none, none⟩⟩, ⟨"t2", none, ⟨none, none, none⟩⟩,
          ⟨"t3", none, ⟨none, none, none⟩⟩], 3)) := by
  have hchain : RunsChain chain3Client none
      [[⟨"t1", none, ⟨none, none, none⟩⟩], [⟨"t2", none, ⟨none, none, none⟩⟩],
        [⟨"t3", none, ⟨none, none, none⟩⟩]] := by
    refine ⟨⟨[⟨"t1", none, ⟨none, none, none⟩⟩], some "c1"⟩, rfl, rfl, by decide, ?_⟩
    refine ⟨⟨[⟨"t2", none, ⟨none, none, none⟩⟩], some "c2"⟩, rfl, rfl, by decide, ?_⟩
    exact ⟨⟨[⟨"t3", none, ⟨none, none, none⟩⟩], none⟩, rfl, rfl, by decide⟩
  have h := getAllTools_concatenates chain3Client
    [[⟨"t1", none, ⟨none, none, none⟩⟩], [⟨"t2", none, ⟨none, none, none⟩⟩],
      [⟨"t3", none, ⟨none, none, none⟩⟩]] none 3 hchain (by decide)
  simpa using h

/-! The three session-using operations: listSearch.ts `getTools`,
resourceMapping.ts `getToolParameters`, Forest.node.ts `Forest.execute`.
Each model returns its result together with the trace of session lifecycle
events it performs (`opened` when `client.connect` succeeds, `closed` when
`client.close()` is awaited). -/

/-- Session lifecycle events. -/
inductive SessEvent where
  | opened
  | closed
deriving DecidableEq

/-- An error surfaced to the host: a thrown NodeOperationError (reduced to
its message) or a rethrown transport-level value. -/
inductive NodeError where
  | operationError (message : String)
  | rethrown (e : ThrownValue)
deriving DecidableEq

/-- One entry of an INodeListSearchResult. -/
structure NodeListSearchItem where
  name : String
  value : String
  description : Option String
deriving DecidableEq

/-- INodeListSearchResult. -/
structure NodeListSearchResult where
  results : List NodeListSearchItem
  paginationToken : Option String
deriving DecidableEq

/-- JS falsiness of an optional string (`!x`): absent or empty. -/
def optStrFalsy : Option String → Bool
  | none => true
  | some s => s.data.isEmpty

/-- listSearch.ts `getTools`: resolve credentials (soft-empty when not
configured), connect (throwing a mapped NodeOperationError on failure), then
list one page, filter by case-insensitive name substring, and map to search
items — closing the session in a `finally` whether listing succeeds or
throws. -/
def getTools (authentication : McpAuthenticationOption)
    (bearerFetch : CredentialFetch BearerCredentials)
    (oauthFetch : CredentialFetch OAuth2Credentials)
    (urlParse transportConnect : String → Except ThrownValue Unit)
    (listToolsCall : Option String → Except ThrownValue ListToolsResult)
    (filter paginationToken : Option String) :
    Except NodeError NodeListSearchResult × List SessEvent :=
  let resolved := getAuthHeadersAndEndpoint authentication bearerFetch oauthFetch
  if optStrFalsy resolved.endpointUrl then
    (.ok ⟨[], none⟩, [])
  else
    match connectMcpClient urlParse transportConnect (resolved.endpointUrl.getD "") with
    | .error e => (.error (.operationError (mapToNodeOperationError e)), [])
    | .ok _ =>
      match listToolsCall paginationToken with
      | .error e => (.error (.rethrown e), [.opened, .closed])
      | .ok result =>
        let tools :=
          if optStrFalsy filter then result.tools
          else result.tools.filter
            (fun tool => jsIncludes (jsToLower tool.name) (jsToLower (filter.getD "")))
        (.ok ⟨tools.map (fun tool => ⟨tool.name, tool.name, tool.description⟩),
            result.nextCursor⟩,
          [.opened, .closed])

/-- resourceMapping.ts `getToolParameters`: soft-empty when no tool selected,
credentials unresolved, or the connection fails; otherwise flatten the whole
catalog, locate the tool, and map its input schema — closing the session in a
`finally`. The outer `Option` is `none` when `getAllTools` exhausts its fuel
(the unguarded pagination recursion has not returned). -/
def getToolParameters (toolValue : String)
    (authentication : McpAuthenticationOption)
    (bearerFetch : CredentialFetch BearerCredentials)
    (oauthFetch : CredentialFetch OAuth2Credentials)
    (urlParse transportConnect : String → Except ThrownValue Unit)
    (listToolsCall : Option String → Except ThrownValue ListToolsResult)
    (fuel : Nat) :
    Option (Except NodeError (List ResourceMapperField) × List SessEvent) :=
  if toolValue.data.isEmpty then some (.ok [], [])
  else
    let resolved := getAuthHeadersAndEndpoint authentication bearerFetch oauthFetch
    if optStrFalsy resolved.endpointUrl then some (.ok [], [])
    else
      match connectMcpClient urlParse transportConnect (resolved.endpointUrl.getD "") with
      | .error _ => some (.ok [], [])
      | .ok _ =>
        match getAllTools listToolsCall fuel none with
        | none => none
        | some (.error e) => some (.error (.rethrown e), [.opened, .closed])
        | some (.ok (tools, _)) =>
          match tools.find? (fun t => t.name == toolValue) with
          | none => some (.ok [], [.opened, .closed])
          | some tool =>
            let schema := tool.inputSchema
            let requiredFields := schema.required.getD []
            some (.ok (convertJsonSchemaToResourceMapperFields schema requiredFields),
              [.opened, .closed])

/-- The per-item loop of `Forest.execute`: each item's tool call and content
processing is an oracle outcome; a failing item either becomes an
error-shaped output record (continue-on-fail) or aborts the batch. -/
def executeItems (continueOnFail : Bool) :
    List (Except String Js) → Except String (List (Except String Js))
  | [] => .ok []
  | item :: rest =>
    match item with
    | .ok v =>
      match executeItems continueOnFail rest with
      | .ok out => .ok (.ok v :: out)
      | .error m => .error m
    | .error msg =>
      if continueOnFail then
        match executeItems continueOnFail rest with
        | .ok out => .ok (.error msg :: out)
        | .error m => .error m
      else .error msg

/-- Forest.node.ts `Forest.execute`: resolve credentials (throwing when no
endpoint), connect (throwing a mapped error on failure), then run the item
loop. The source contains no `close()` call for this client: the opened
session is simply dropped on every path, so the trace after a successful
connect is `[opened]` with no `closed` event. -/
def forestExecute (authentication : McpAuthenticationOption)
    (bearerFetch : CredentialFetch BearerCredentials)
    (oauthFetch : CredentialFetch OAuth2Credentials)
    (urlParse transportConnect : String → Except ThrownValue Unit)
    (items : List (Except String Js)) (continueOnFail : Bool) :
    Except NodeError (List (Except String Js)) × List SessEvent :=
  let resolved := getAuthHeadersAndEndpoint authentication bearerFetch oauthFetch
  if optStrFalsy resolved.endpointUrl then
    (.error (.operationError "Server URL is required in credentials"), [])
  else
    match connectMcpClient urlParse transportConnect (resolved.endpointUrl.getD "") with
    | .error e => (.error (.operationError (mapToNodeOperationError e)), [])
    | .ok _ =>
      match executeItems continueOnFail items with
      | .ok out => (.ok out, [.opened])
      | .error m => (.error (.operationError m), [.opened])

/-- C1 counterexample: a fully successful `Forest.execute` run (resolved
bearer credentials, parseable URL, successful connect, one successful item)
opens a session and never closes it — refuting the claim that every
successfully opened session is explicitly closed before the operation
returns in all three uses. -/
theorem forestExecute_never_closes_counterexample :
    (forestExecute .bearerAuth (.ok (some ⟨some "https://x.test", some "abc"⟩))
        (.ok none) (fun _ => .ok ()) (fun _ => .ok ()) [.ok Js.null] false).2
      = [SessEvent.opened]
    ∧ SessEvent.closed ∉
      (forestExecute .bearerAuth (.ok (some ⟨some "https://x.test", some "abc"⟩))
        (.ok none) (fun _ => .ok ()) (fun _ => .ok ()) [.ok Js.null] false).2 := by
  decide

/-- C1 (amended): the sessions opened by the two discovery operations
(`getTools`, `getToolParameters`) are explicitly closed before returning on
every returning path, including error paths; the session opened by
`Forest.execute` is never explicitly closed. -/
theorem session_lifecycle_per_operation
    (authentication : McpAuthenticationOption)
    (bearerFetch : CredentialFetch BearerCredentials)
    (oauthFetch : CredentialFetch OAuth2Credentials)
    (urlParse transportConnect : String → Except ThrownValue Unit)
    (listToolsCall : Option String → Except ThrownValue ListToolsResult)
    (filter paginationToken : Option String) (toolValue : String) (fuel : Nat)
    (items : List (Except String Js)) (continueOnFail : Bool) :
    ((getTools authentication bearerFetch oauthFetch urlParse transportConnect
        listToolsCall filter paginationToken).2 = []
      ∨ (getTools authentication bearerFetch oauthFetch urlParse transportConnect
        listToolsCall filter paginationToken).2 = [.opened, .closed])
    ∧ (∀ r ev, getToolParameters toolValue authentication bearerFetch oauthFetch
        urlParse transportConnect listToolsCall fuel = some (r, ev) →
        ev = [] ∨ ev = [.opened, .closed])
    ∧ SessEvent.closed ∉ (forestExecute authentication bearerFetch oauthFetch
        urlParse transportConnect items continueOnFail).2 := by
  refine ⟨?_, ?_, ?_⟩
  · by_cases h1 : optStrFalsy
        (getAuthHeadersAndEndpoint authentication bearerFetch oauthFetch).endpointUrl = true
    · left
      simp [getTools, h1]
    · cases hc : connectMcpClient urlParse transportConnect
          ((getAuthHeadersAndEndpoint authentication bearerFetch oauthFetch).endpointUrl.getD
            "") with
      | error e => left; simp [getTools, h1, hc]
      | ok u =>
        cases hl : listToolsCall paginationToken with
        | error e => right; simp [getTools, h1, hc, hl]
        | ok r => right; simp [getTools, h1, hc, hl]
  · intro r ev h
    by_cases h0 : toolValue.data.isEmpty = true
    · simp [getToolParameters, h0] at h
      left; exact h.2
    · by_cases h1 : optStrFalsy
          (getAuthHeadersAndEndpoint authentication bearerFetch oauthFetch).endpointUrl = true
      · simp [getToolParameters, h0, h1] at h
        left; exact h.2
      · cases hc : connectMcpClient urlParse transportConnect
            ((getAuthHeadersAndEndpoint authentication bearerFetch
              oauthFetch).endpointUrl.getD "") with
        | error e =>
          simp [getToolParameters, h0, h1, hc] at h
          left; exact h.2
        | ok u =>
          cases ha : getAllTools listToolsCall fuel none with
          | none => simp [getToolParameters, h0, h1, hc, ha] at h
          | some res =>
            cases res with
            | error e =>
              simp [getToolParameters, h0, h1, hc, ha] at h
              right; exact h.2.symm
            | ok pair =>
              cases hf : pair.1.find? (fun t => t.name == toolValue) with
              | none =>
                simp [getToolParameters, h0, h1, hc, ha, hf] at h
                right; exact h.2.symm
              | some tool =>
                simp [getToolParameters, h0, h1, hc, ha, hf] at h
                right; exact h.2.symm
  · by_cases h1 : optStrFalsy
        (getAuthHeadersAndEndpoint authentication bearerFetch oauthFetch).endpointUrl = true
    · simp [forestExecute, h1]
    · cases hc : connectMcpClient urlParse transportConnect
          ((getAuthHeadersAndEndpoint authentication bearerFetch oauthFetch).endpointUrl.getD
            "") with
      | error e => simp [forestExecute, h1, hc]
      | ok u =>
        cases he : executeItems continueOnFail items with
        | error m => simp [forestExecute, h1, hc, he]
        | ok out => simp [forestExecute, h1, hc, he]

/-- Witness for C1 (amended): concrete runs — a getTools run whose listing
throws still closes its session, a getToolParameters run that returns closes
its session, and a successful execute run never emits a close. -/
theorem session_lifecycle_per_operation_witness :
    ((getTools .bearerAuth (.ok (some ⟨some "https://x.test", some "abc"⟩)) (.ok none)
        (fun _ => .ok ()) (fun _ => .ok ())
        (fun _ => .error (.objError none (some "boom"))) none none).2 = []
      ∨ (getTools .bearerAuth (.ok (some ⟨some "https://x.test", some "abc"⟩)) (.ok none)
        (fun _ => .ok ()) (fun _ => .ok ())
        (fun _ => .error (.objError none (some "boom"))) none none).2
        = [.opened, .closed])
    ∧ (([SessEvent.opened, SessEvent.closed] : List SessEvent) = []
      ∨ ([SessEvent.opened, SessEvent.closed] : List SessEvent)
          = [SessEvent.opened, SessEvent.closed])
    ∧ SessEvent.closed ∉ (forestExecute .bearerAuth
        (.ok (some ⟨some "https://x.test", some "abc"⟩)) (.ok none)
        (fun _ => .ok ()) (fun _ => .ok ()) [.ok Js.null] false).2 := by
  have h := session_lifecycle_per_operation .bearerAuth
    (.ok (some ⟨some "https://x.test", some "abc"⟩)) (.ok none)
    (fun _ => .ok ()) (fun _ => .ok ())
    (fun _ => .error (.objError none (some "boom"))) none none "t" 1 [.ok Js.null] false
  refine ⟨h.1, ?_, h.2.2⟩
  exact h.2.1 (.error (.rethrown (.objError none (some "boom"))))
    [SessEvent.opened, SessEvent.closed] (by decide)

/-- C2 counterexample: with configured credentials, a parseable URL and a
generic connection failure at connect time, `getToolParameters` returns an
empty field list with no error — a connection failure silently converted
into an empty result during discovery, refuting the claim. -/
theorem getToolParameters_swallows_connect_error_counterexample :
    getToolParameters "t" .bearerAuth
      (.ok (some ⟨some "https://x.test", some "abc"⟩)) (.ok none)
      (fun _ => .ok ()) (fun _ => .error (.objError none (some "ECONNREFUSED")))
      (fun _ => .ok ⟨[], none⟩) 1
      = some (.ok [], []) := by
  decide

/-- C2 (amended): during tool listing (`getTools`) only the
configuration-incomplete state is downgraded to an empty result and every
connection failure is surfaced as a mapped error; during schema lookup
(`getToolParameters`) a connection failure is likewise silently downgraded
to an empty field list. -/
theorem discovery_error_surfacing
    (authentication : McpAuthenticationOption)
    (bearerFetch : CredentialFetch BearerCredentials)
    (oauthFetch : CredentialFetch OAuth2Credentials)
    (urlParse transportConnect : String → Except ThrownValue Unit)
    (listToolsCall : Option String → Except ThrownValue ListToolsResult)
    (filter paginationToken : Option String) (toolValue : String) (fuel : Nat) :
    (optStrFalsy (getAuthHeadersAndEndpoint authentication bearerFetch
        oauthFetch).endpointUrl = true →
      getTools authentication bearerFetch oauthFetch urlParse transportConnect
        listToolsCall filter paginationToken = (.ok ⟨[], none⟩, []))
    ∧ (∀ e, optStrFalsy (getAuthHeadersAndEndpoint authentication bearerFetch
        oauthFetch).endpointUrl = false →
        connectMcpClient urlParse transportConnect
          ((getAuthHeadersAndEndpoint authentication bearerFetch
            oauthFetch).endpointUrl.getD "") = Result.error e →
        getTools authentication bearerFetch oauthFetch urlParse transportConnect
          listToolsCall filter paginationToken
          = (.error (.operationError (mapToNodeOperationError e)), []))
    ∧ (∀ e, toolValue.data.isEmpty = false →
        optStrFalsy (getAuthHeadersAndEndpoint authentication bearerFetch
          oauthFetch).endpointUrl = false →
        connectMcpClient urlParse transportConnect
          ((getAuthHeadersAndEndpoint authentication bearerFetch
            oauthFetch).endpointUrl.getD "") = Result.error e →
        getToolParameters toolValue authentication bearerFetch oauthFetch
          urlParse transportConnect listToolsCall fuel = some (.ok [], [])) := by
  refine ⟨fun h1 => by simp [getTools, h1], ?_, ?_⟩
  · intro e h1 hc
    simp [getTools, h1, hc]
  · intro e h0 h1 hc
    simp [getToolParameters, h0, h1, hc]

/-- Witness for C2 (amended): concretely, a connect failure makes getTools
throw the mapped connection message while getToolParameters returns empty
fields, and unconfigured credentials make getTools return empty results. -/
theorem discovery_error_surfacing_witness :
    getTools .bearerAuth (.ok (some ⟨some "https://x.test", some "abc"⟩)) (.ok none)
        (fun _ => .ok ()) (fun _ => .error (.objError none (some "ECONNREFUSED")))
        (fun _ => .ok ⟨[], none⟩) none none
      = (.error (.operationError "Could not connect to your Forest MCP server"), [])
    ∧ getToolParameters "t" .bearerAuth
        (.ok (some ⟨some "https://x.test", some "abc"⟩)) (.ok none)
        (fun _ => .ok ()) (fun _ => .error (.objError none (some "ECONNREFUSED")))
        (fun _ => .ok ⟨[], none⟩) 1
      = some (.ok [], [])
    ∧ getTools .bearerAuth (.error ()) (.ok none)
        (fun _ => .ok ()) (fun _ => .ok ()) (fun _ => .ok ⟨[], none⟩) none none
      = (.ok ⟨[], none⟩, []) := by
  have hd := discovery_error_surfacing .bearerAuth
    (.ok (some ⟨some "https://x.test", some "abc"⟩)) (.ok none)
    (fun _ => .ok ()) (fun _ => .error (.objError none (some "ECONNREFUSED")))
    (fun _ => .ok ⟨[], none⟩) none none "t" 1
  have hu := discovery_error_surfacing .bearerAuth (.error ()) (.ok none)
    (fun _ => .ok ()) (fun _ => .ok ()) (fun _ => .ok ⟨[], none⟩) none none "t" 1
  refine ⟨?_, ?_, hu.1 (by decide)⟩
  · have := hd.2.1 (.connection (.objError none (some "ECONNREFUSED"))) (by decide) (by decide)
    simpa [mapToNodeOperationError] using this
  · exact hd.2.2 (.connection (.objError none (some "ECONNREFUSED"))) (by decide) (by decide)
      (by decide)
